import Mathlib

/-!
Verification of the plan-to-transaction generation core of `contender`
(`src/generator/testfile/mod.rs`): the `Templater` string-substitution
engine, the `PlanConfig` phase accessors on `TestConfig`, the TOML
round-trip of the plan model, and the two `OnTxSent` callback variants.

Strings are embedded as `List Char` (the source operates on UTF-8 `String`s;
every character-level operation used by the source — `find`, `replace`,
`split_at`, `chars().filter`, slicing — is modelled at character granularity).
Rust `HashMap`s are embedded as association lists; the iteration order of a
`HashMap` is unspecified in Rust, so the list order stands for one concrete
iteration order and claims about "the" behaviour must hold for every order.
Code that can panic (`unwrap`, `expect`, out-of-bounds slicing) is embedded
with `Except PanicKind` results, where `.error` marks the panic.
-/

namespace Contender

/-- The character `{` (written via its code point to keep brace characters
out of string and character literals). -/
def lbrace : Char := Char.ofNat 123

/-- The character `}`. -/
def rbrace : Char := Char.ofNat 125

/-- `braceFree s` means `s` contains neither `{` nor `}`. -/
def braceFree : List Char → Bool
  | [] => true
  | c :: rest => c != lbrace && c != rbrace && braceFree rest

/-- Fuel-indexed worker for Rust's `str::replace`: scan left to right; at
each position, if `pat` is a prefix of the remaining input, emit `rep` and
skip over the matched occurrence, otherwise emit one character and advance.
The fuel only serves to make the recursion structural; `strReplace` always
supplies enough fuel (the length of the string). -/
def replaceAllF (pat rep : List Char) : Nat → List Char → List Char
  | _, [] => []
  | 0, s => s
  | fuel + 1, c :: rest =>
    if pat.isPrefixOf (c :: rest) then
      rep ++ replaceAllF pat rep fuel ((c :: rest).drop pat.length)
    else
      c :: replaceAllF pat rep fuel rest

/-- Embeds Rust `s.replace(pat, rep)` (leftmost, non-overlapping
replacement of every occurrence of `pat` in `s` by `rep`).  At every call
site in the source the pattern is a nonempty template string. -/
def strReplace (s pat rep : List Char) : List Char :=
  replaceAllF pat rep s.length s

/-- Embeds `Templater::replace_placeholders` for `TestConfig`
(`mod.rs` lines 69–76): iterate over the map's entries, and for each
`(key, value)` replace every occurrence of the template `{key}` in the
accumulated output by `value`.  The association-list order models one
iteration order of the source's `HashMap`. -/
def replace_placeholders (template_map : List (List Char × List Char))
    (input : List Char) : List Char :=
  template_map.foldl
    (fun output kv => strReplace output (lbrace :: (kv.1 ++ [rbrace])) kv.2)
    input

/-- Index of the first occurrence of a character, as Rust's `str::find`. -/
def findChar (c : Char) : List Char → Option Nat
  | [] => none
  | x :: xs => if x = c then some 0 else (findChar c xs).map (fun i => i + 1)

/-- Embeds `Templater::terminator_start`: `input.find("{")`. -/
def terminator_start (input : List Char) : Option Nat :=
  findChar lbrace input

/-- Embeds `Templater::terminator_end`: `input.find("}")`. -/
def terminator_end (input : List Char) : Option Nat :=
  findChar rbrace input

/-- Embeds `Templater::num_placeholders`:
`input.chars().filter(|&c| c == '{').count()`. -/
def num_placeholders (input : List Char) : Nat :=
  input.count lbrace

/-- The panic conditions reachable in the embedded code. -/
inductive PanicKind where
  /-- `Option::unwrap` on `None`. -/
  | unwrapNone
  /-- `str::parse::<u64>()` followed by `unwrap` on the error. -/
  | parseFailure
  /-- string slicing `&s[a..b]` with `a > b` or `b > len`. -/
  | sliceOutOfBounds
  /-- `expect` on a failed database insert inside the spawned task. -/
  | dbInsertFailed
deriving DecidableEq, Repr

/-- Embeds `Templater::copy_end`: `input.split_at(last_end).1`, i.e. the
tail of the string from index `last_end`.  Rust's `split_at` panics when
the index exceeds the string length; the panic is made explicit. -/
def copy_end (input : List Char) (last_end : Nat) : Except PanicKind (List Char) :=
  if last_end ≤ input.length then .ok (input.drop last_end)
  else .error .sliceOutOfBounds

/-- Rust string slicing `&s[a..b]`, which panics unless `a ≤ b ≤ s.len()`. -/
def sliceIdx (s : List Char) (a b : Nat) : Option (List Char) :=
  if a ≤ b ∧ b ≤ s.length then some ((s.drop a).take (b - a)) else none

/-- Embeds `Templater::find_key` (`mod.rs` lines 94–103): locate the first
`{` and the first `}` of the whole input, slice the text strictly between
them (`&input[template_start + 1..template_end]`, a panicking slice), and
return it together with the end index; return `none` when either delimiter
is missing. -/
def find_key (input : List Char) : Except PanicKind (Option (List Char × Nat)) :=
  match terminator_start input with
  | some template_start =>
    match terminator_end input with
    | some template_end =>
      match sliceIdx input (template_start + 1) template_end with
      | some template_name => .ok (some (template_name, template_end))
      | none => .error .sliceOutOfBounds
    | none => .ok none
  | none => .ok none

/-- First value bound to key `k` in an association list (Rust `HashMap::get`
with the map embedded as its entry list). -/
def lookupKey {α β : Type} [DecidableEq α] (k : α) : List (α × β) → Option β
  | [] => none
  | kv :: rest => if kv.1 = k then some kv.2 else lookupKey k rest

/-- One lowercase hexadecimal digit, as produced by `const-hex`
(re-exported as `alloy::hex`): `0`–`9` then `a`–`f`. -/
def hexDigitChar (n : Nat) : Char :=
  if n < 10 then Char.ofNat (48 + n) else Char.ofNat (87 + n)

/-- Lowercase hex encoding of one byte (two digits, high nibble first). -/
def encodeByteHex (b : Nat) : List Char :=
  [hexDigitChar (b / 16), hexDigitChar (b % 16)]

/-- Lowercase hex encoding of a byte string. -/
def encodeBytesHex : List Nat → List Char
  | [] => []
  | b :: bs => encodeByteHex b ++ encodeBytesHex bs

/-- Embeds `Templater::encode_contract_address` (`mod.rs` lines 105–107):
`input.encode_hex()`, where `encode_hex` is `const-hex`'s `ToHexExt::encode_hex`
— lowercase hexadecimal with **no** `0x` prefix (the prefixed variant is the
separate `encode_hex_with_prefix`).  An `Address` is its 20 raw bytes. -/
def encode_contract_address (addr : List Nat) : List Char :=
  encodeBytesHex addr

/-- Numeric value of one hexadecimal digit, either case. -/
def hexDigitVal (c : Char) : Option Nat :=
  if 48 ≤ c.toNat ∧ c.toNat ≤ 57 then some (c.toNat - 48)
  else if 97 ≤ c.toNat ∧ c.toNat ≤ 102 then some (c.toNat - 87)
  else if 65 ≤ c.toNat ∧ c.toNat ≤ 70 then some (c.toNat - 55)
  else none

/-- Decode a string of hexadecimal digit pairs into bytes. -/
def decodeHexBytes : List Char → Option (List Nat)
  | [] => some []
  | [_] => none
  | c1 :: c2 :: rest =>
    match hexDigitVal c1, hexDigitVal c2, decodeHexBytes rest with
    | some h, some l, some bs => some ((16 * h + l) :: bs)
    | _, _, _ => none

/-- Modelled from the spec: the address parsing applied when a substituted
placeholder value is re-parsed as an address at encoding time (the parser
itself — alloy's `Address` string parsing — lives outside `src/`).  Per the
spec it is "lowercase/uppercase-agnostic hexadecimal" of "fixed 20-byte
width" with an optional `0x` prefix. -/
def parseAddress (s : List Char) : Option (List Nat) :=
  let t := if ("0x".toList).isPrefixOf s then s.drop 2 else s
  if t.length = 40 then decodeHexBytes t else none

/-- A token of a template string: either literal text or a placeholder
`{k}`.  A string whose braces are all well delimited is the rendering of a
token list whose literals and keys are brace-free. -/
inductive Tok where
  | lit (s : List Char)
  | ph (k : List Char)
deriving DecidableEq, Repr

/-- The string a token denotes: literals denote themselves, `ph k`
denotes `{k}`. -/
def renderTok : Tok → List Char
  | .lit s => s
  | .ph k => lbrace :: (k ++ [rbrace])

/-- Concatenated rendering of a token list. -/
def render : List Tok → List Char
  | [] => []
  | t :: ts => renderTok t ++ render ts

/-- Well-formedness of a token list: every literal and every placeholder
key is brace-free. -/
def wfTok : Tok → Bool
  | .lit s => braceFree s
  | .ph k => braceFree k

/-- Well-formedness of a token list. -/
def wfToks (ts : List Tok) : Bool :=
  ts.all wfTok

/-- Is the token a placeholder? -/
def isPhTok : Tok → Bool
  | .ph _ => true
  | .lit _ => false

/-- Replace the placeholders with key `k` by the literal `v`, leaving all
other tokens unchanged (the token-level effect of one `str::replace` pass
with template `{k}`). -/
def substOne (k v : List Char) : List Tok → List Tok
  | [] => []
  | .lit s :: ts => .lit s :: substOne k v ts
  | .ph k' :: ts => (if k' = k then .lit v else .ph k') :: substOne k v ts

/-- Simultaneous substitution of a whole mapping at the token level: a
placeholder whose key is bound in the mapping becomes the bound value as
literal text, a placeholder whose key is absent stays a placeholder. -/
def substTok (m : List (List Char × List Char)) : Tok → Tok
  | .lit s => .lit s
  | .ph k =>
    match lookupKey k m with
    | some v => .lit v
    | none => .ph k

/-- Modelled from the spec: the number of placeholders "still present" in a
string, read as the count of positions where a complete well-delimited
`{name}` occurrence begins — a `{` that is eventually closed by a `}` with
no intervening brace.  (This is the spec-side count that
`num_placeholders`, which counts `{` characters, is compared against.) -/
def isPlaceholderStart : List Char → Bool
  | [] => false
  | c :: u =>
    c == lbrace && (u.takeWhile (fun d => d != rbrace)).all (fun d => d != lbrace)
      && u.contains rbrace

/-- Modelled from the spec: count of complete `{name}` occurrences in a
string (see `isPlaceholderStart`). -/
def specNumPlaceholders (s : List Char) : Nat :=
  (s.tails.filter isPlaceholderStart).length

/-! ## The plan model

`TestConfig` and the step-definition types are declared in
`generator/types.rs` (outside `src/`); their fields are fixed by the
accessor implementations and the unit tests inside `src/`.  `HashMap`
fields are embedded as association lists; `U256` bounds as `Nat`. -/

/-- `FuzzParam` (`param`, optional `min`/`max` bounds). -/
structure FuzzParam where
  param : String
  min : Option Nat
  max : Option Nat
deriving DecidableEq, Repr

/-- `FunctionCallDefinition` (`to`, `from`, `signature`, optional `args`,
`value`, `fuzz`). -/
structure FunctionCallDefinition where
  «to» : String
  «from» : String
  signature : String
  args : Option (List String)
  value : Option String
  fuzz : Option (List FuzzParam)
deriving DecidableEq, Repr

/-- `CreateDefinition` (`bytecode`, `name`, `from`). -/
structure CreateDefinition where
  bytecode : String
  name : String
  «from» : String
deriving DecidableEq, Repr

/-- `TestConfig`: the four optional top-level plan fields. -/
structure TestConfig where
  env : Option (List (String × String))
  create : Option (List CreateDefinition)
  setup : Option (List FunctionCallDefinition)
  spam : Option (List FunctionCallDefinition)
deriving DecidableEq, Repr

/-- The `ContenderError` variants constructed in `src/` (the enum itself is
declared in `error.rs`, outside `src/`; only these two variants are used by
the embedded code).  Each carries a static message and an optional detail
string, exactly as at the construction sites. -/
inductive ContenderError where
  | SpamError (msg : String) (detail : Option String)
  | SetupError (msg : String) (detail : Option String)
deriving DecidableEq, Repr

/-- The variant ("kind") of an error, forgetting its payload — the Rust
enum discriminant. -/
inductive ErrKind where
  | spamKind
  | setupKind
deriving DecidableEq, Repr

/-- The variant of a `ContenderError`. -/
def ContenderError.kind : ContenderError → ErrKind
  | .SpamError _ _ => .spamKind
  | .SetupError _ _ => .setupKind

/-- The variant of the error of a failed result, if any. -/
def errorKindOf {α : Type} : Except ContenderError α → Option ErrKind
  | .error e => some e.kind
  | .ok _ => none

/-- Embeds `PlanConfig::get_spam_steps` (`mod.rs` lines 40–44):
`self.spam.to_owned().ok_or(ContenderError::SpamError("no spam steps found", None))`. -/
def get_spam_steps (c : TestConfig) : Except ContenderError (List FunctionCallDefinition) :=
  match c.spam with
  | some s => .ok s
  | none => .error (.SpamError "no spam steps found" none)

/-- Embeds `PlanConfig::get_setup_steps` (lines 46–50). -/
def get_setup_steps (c : TestConfig) : Except ContenderError (List FunctionCallDefinition) :=
  match c.setup with
  | some s => .ok s
  | none => .error (.SetupError "no setup steps found" none)

/-- Embeds `PlanConfig::get_create_steps` (lines 52–56); note the source
constructs a `SetupError`, not a create-specific variant. -/
def get_create_steps (c : TestConfig) : Except ContenderError (List CreateDefinition) :=
  match c.create with
  | some s => .ok s
  | none => .error (.SetupError "no create steps found" none)

/-- Embeds `PlanConfig::get_env` (lines 58–63); also a `SetupError`. -/
def get_env (c : TestConfig) : Except ContenderError (List (String × String)) :=
  match c.env with
  | some e => .ok e
  | none => .error (.SetupError "no environment variables found" none)

/-! ## The `OnTxSent` callbacks -/

/-- Embeds `OnTxSent for NilCallback` (`mod.rs` lines 131–141): ignore all
three arguments, perform no work, spawn nothing, return `None`.  The
transaction hash is its 32-byte value as a number, the request type is
abstract since the callback never inspects it. -/
def nilOnTxSent {Req : Type} (_tx_res : Nat) (_req : Req)
    (_extra : Option (List (String × String))) : Except PanicKind (Option Unit) :=
  .ok none

/-- Embeds Rust `str::parse::<u64>()`: an optional leading `+`, then at
least one decimal digit, no other characters, and a value below `2^64`
(overflow is a parse error). -/
def parseU64 (s : List Char) : Option Nat :=
  let t := if s.head? = some '+' then s.drop 1 else s
  if t.isEmpty then none
  else if t.all Char.isDigit then
    let v := t.foldl (fun acc c => acc * 10 + (c.toNat - 48)) 0
    if v < 2 ^ 64 then some v else none
  else none

/-- The run-identifier extraction of `OnTxSent for LogCallback`
(`mod.rs` lines 158–160):
`extra.map(|e| e.get("run_id").unwrap().parse::<u64>().unwrap()).unwrap_or(0)`.
A missing map silently yields `0`; a present map without the key panics on
the first `unwrap`; an unparseable value panics on the second. -/
def extractRunId (extra : Option (List (String × String))) : Except PanicKind Nat :=
  match extra with
  | none => .ok 0
  | some e =>
    match lookupKey "run_id" e with
    | none => .error .unwrapNone
    | some s =>
      match parseU64 s.toList with
      | none => .error .parseFailure
      | some n => .ok n

/-- The record persisted by the task spawned in `LogCallback::on_tx_sent`:
the argument triple of `db.insert_run_tx(run_id, tx_hash, timestamp)`. -/
structure SpawnedInsert where
  run_id : Nat
  tx_hash : Nat
  timestamp : Nat
deriving DecidableEq, Repr

/-- Embeds `OnTxSent for LogCallback` (`mod.rs` lines 147–166): take the
timestamp (milliseconds since the epoch, an ambient value passed here as a
parameter), extract the run id, spawn a task that inserts
`(run_id, tx_hash, timestamp)` into the database, and return `Some` handle.
The spawned work is represented by the `SpawnedInsert` it will perform; the
function's own result never depends on the database. -/
def logOnTxSent (txHash : Nat) (extra : Option (List (String × String)))
    (timestampMillis : Nat) : Except PanicKind (Option SpawnedInsert) :=
  match extractRunId extra with
  | .error p => .error p
  | .ok rid => .ok (some { run_id := rid, tx_hash := txHash, timestamp := timestampMillis })

/-- Executing the spawned task against a database whose `insert_run_tx`
outcome is `dbResult`: a failed insert hits the `expect` and aborts (only)
the task (`mod.rs` lines 161–164). -/
def runSpawnedInsert (dbResult : SpawnedInsert → Except String Unit)
    (t : SpawnedInsert) : Except PanicKind Unit :=
  match dbResult t with
  | .ok _ => .ok ()
  | .error _ => .error .dbInsertFailed

/-! ## The TOML round-trip

`TestConfig::encode_toml` / `save_toml` / `from_file` delegate to the
`toml` crate over the serde derives of `TestConfig` (declared in
`generator/types.rs`, outside `src/`).  The serialization is modelled from
the spec at the document level: a TOML document is a table of key–value
pairs; serde omits an `Option` field that is `None` and a missing key
deserializes to `None`; numbers stand for the serialized `U256` bounds. -/

/-- A TOML value: string, number, array, or table. -/
inductive TomlVal where
  | str (s : String)
  | num (n : Nat)
  | arr (xs : List TomlVal)
  | table (kvs : List (String × TomlVal))

/-- The serialization of one optional field: absent values are omitted. -/
def optField (k : String) : Option TomlVal → List (String × TomlVal)
  | none => []
  | some v => [(k, v)]

/-- Modelled from the spec: serialization of the `env` map. -/
def encodeEnv (m : List (String × String)) : TomlVal :=
  .table (m.map (fun kv => (kv.1, .str kv.2)))

/-- Modelled from the spec: serialization of a `FuzzParam`. -/
def encodeFuzzParam (f : FuzzParam) : TomlVal :=
  .table ([("param", TomlVal.str f.param)]
    ++ optField "min" (f.min.map .num)
    ++ optField "max" (f.max.map .num))

/-- Modelled from the spec: serialization of a `FunctionCallDefinition`. -/
def encodeFunctionCall (f : FunctionCallDefinition) : TomlVal :=
  .table ([("to", TomlVal.str f.«to»), ("from", TomlVal.str f.«from»),
      ("signature", TomlVal.str f.signature)]
    ++ optField "args" (f.args.map (fun l => .arr (l.map .str)))
    ++ optField "value" (f.value.map .str)
    ++ optField "fuzz" (f.fuzz.map (fun l => .arr (l.map encodeFuzzParam))))

/-- Modelled from the spec: serialization of a `CreateDefinition`. -/
def encodeCreate (c : CreateDefinition) : TomlVal :=
  .table [("bytecode", TomlVal.str c.bytecode), ("name", TomlVal.str c.name),
    ("from", TomlVal.str c.«from»)]

/-- Modelled from the spec: `TestConfig::encode_toml` at the document
level — the four optional top-level fields, each omitted when `None`. -/
def encode_toml (c : TestConfig) : List (String × TomlVal) :=
  optField "env" (c.env.map encodeEnv)
    ++ optField "create" (c.create.map (fun l => .arr (l.map encodeCreate)))
    ++ optField "setup" (c.setup.map (fun l => .arr (l.map encodeFunctionCall)))
    ++ optField "spam" (c.spam.map (fun l => .arr (l.map encodeFunctionCall)))

/-- The string under a TOML value, if it is one. -/
def asStr : TomlVal → Option String
  | .str s => some s
  | _ => none

/-- The number under a TOML value, if it is one. -/
def asNum : TomlVal → Option Nat
  | .num n => some n
  | _ => none

/-- Decode each element of a TOML array with `dec`, failing if any
element fails. -/
def decodeListWith {α : Type} (dec : TomlVal → Option α) : List TomlVal → Option (List α)
  | [] => some []
  | v :: rest =>
    match dec v, decodeListWith dec rest with
    | some a, some l => some (a :: l)
    | _, _ => none

/-- Decode an optional field: a missing key is `none` (and succeeds), a
present key must decode with `dec`. -/
def decodeOptWith {α : Type} (kvs : List (String × TomlVal)) (k : String)
    (dec : TomlVal → Option α) : Option (Option α) :=
  match lookupKey k kvs with
  | none => some none
  | some v => (dec v).map some

/-- Decode the entries of an `env` table. -/
def decodeEnvEntries : List (String × TomlVal) → Option (List (String × String))
  | [] => some []
  | kv :: rest =>
    match asStr kv.2, decodeEnvEntries rest with
    | some s, some l => some ((kv.1, s) :: l)
    | _, _ => none

/-- Modelled from the spec: deserialization of the `env` map. -/
def decodeEnv : TomlVal → Option (List (String × String))
  | .table kvs => decodeEnvEntries kvs
  | _ => none

/-- Modelled from the spec: deserialization of a `FuzzParam`. -/
def decodeFuzzParam : TomlVal → Option FuzzParam
  | .table kvs =>
    match (lookupKey "param" kvs).bind asStr,
        decodeOptWith kvs "min" asNum, decodeOptWith kvs "max" asNum with
    | some p, some mn, some mx => some { param := p, min := mn, max := mx }
    | _, _, _ => none
  | _ => none

/-- Modelled from the spec: deserialization of a TOML array. -/
def decodeArrWith {α : Type} (dec : TomlVal → Option α) : TomlVal → Option (List α)
  | .arr xs => decodeListWith dec xs
  | _ => none

/-- Modelled from the spec: deserialization of a `FunctionCallDefinition`. -/
def decodeFunctionCall : TomlVal → Option FunctionCallDefinition
  | .table kvs =>
    match (lookupKey "to" kvs).bind asStr, (lookupKey "from" kvs).bind asStr,
        (lookupKey "signature" kvs).bind asStr,
        decodeOptWith kvs "args" (decodeArrWith asStr),
        decodeOptWith kvs "value" asStr,
        decodeOptWith kvs "fuzz" (decodeArrWith decodeFuzzParam) with
    | some t, some fr, some sg, some ar, some vl, some fz =>
      some { «to» := t, «from» := fr, signature := sg, args := ar, value := vl, fuzz := fz }
    | _, _, _, _, _, _ => none
  | _ => none

/-- Modelled from the spec: deserialization of a `CreateDefinition`. -/
def decodeCreate : TomlVal → Option CreateDefinition
  | .table kvs =>
    match (lookupKey "bytecode" kvs).bind asStr, (lookupKey "name" kvs).bind asStr,
        (lookupKey "from" kvs).bind asStr with
    | some b, some n, some fr => some { bytecode := b, name := n, «from» := fr }
    | _, _, _ => none
  | _ => none

/-- Modelled from the spec: `TestConfig::from_file` at the document level
(the file read and the concrete TOML text layer are outside this model) —
each of the four top-level fields is optional and absent keys become
`None`. -/
def decode_toml (doc : List (String × TomlVal)) : Option TestConfig :=
  match decodeOptWith doc "env" decodeEnv,
      decodeOptWith doc "create" (decodeArrWith decodeCreate),
      decodeOptWith doc "setup" (decodeArrWith decodeFunctionCall),
      decodeOptWith doc "spam" (decodeArrWith decodeFunctionCall) with
  | some e, some c, some s, some sp =>
    some { env := e, create := c, setup := s, spam := sp }
  | _, _, _, _ => none

/-! ## Properties of the replacement scan -/

theorem replaceAllF_nil (pat rep : List Char) (f : Nat) : replaceAllF pat rep f [] = [] := by
  cases f <;> rfl

theorem replaceAllF_eq_strReplace (pat rep : List Char) (hp : pat ≠ []) :
    ∀ f s, s.length ≤ f → replaceAllF pat rep f s = strReplace s pat rep := by
  intro f
  induction f using Nat.strong_induction_on with
  | _ f ih =>
    intro s hle
    cases s with
    | nil => rw [replaceAllF_nil]; rfl
    | cons c rest =>
      cases f with
      | zero => simp at hle
      | succ f =>
        have hpat : 0 < pat.length := List.length_pos.mpr hp
        have hrest : rest.length ≤ f := by
          simp only [List.length_cons] at hle; omega
        show replaceAllF pat rep (f + 1) (c :: rest)
          = replaceAllF pat rep (c :: rest).length (c :: rest)
        simp only [List.length_cons]
        by_cases h : pat.isPrefixOf (c :: rest)
        · simp only [replaceAllF, if_pos h]
          have hd : ((c :: rest).drop pat.length).length ≤ rest.length := by
            simp only [List.length_drop, List.length_cons]; omega
          rw [ih f (Nat.lt_succ_self f) _ (le_trans hd hrest),
            ih rest.length (Nat.lt_succ_of_le hrest) _ hd]
        · simp only [replaceAllF, if_neg h]
          rw [ih f (Nat.lt_succ_self f) rest hrest]
          rfl

theorem strReplace_cons_pos (pat rep : List Char) (c : Char) (rest : List Char)
    (hp : pat ≠ []) (h : pat.isPrefixOf (c :: rest) = true) :
    strReplace (c :: rest) pat rep = rep ++ strReplace ((c :: rest).drop pat.length) pat rep := by
  have hpat : 0 < pat.length := List.length_pos.mpr hp
  show replaceAllF pat rep (rest.length + 1) (c :: rest) = _
  simp only [replaceAllF, if_pos h]
  congr 1
  exact replaceAllF_eq_strReplace pat rep hp rest.length _
    (by simp only [List.length_drop, List.length_cons]; omega)

theorem strReplace_cons_neg (pat rep : List Char) (c : Char) (rest : List Char)
    (h : pat.isPrefixOf (c :: rest) = false) :
    strReplace (c :: rest) pat rep = c :: strReplace rest pat rep := by
  show replaceAllF pat rep (rest.length + 1) (c :: rest) = _
  simp only [replaceAllF, h]
  rfl

theorem isPrefixOf_append_self (p s : List Char) : p.isPrefixOf (p ++ s) = true := by
  induction p with
  | nil => simp
  | cons c p ih => simp only [List.cons_append, List.isPrefixOf_cons₂, beq_self_eq_true,
      Bool.true_and]; exact ih

theorem isPrefixOf_cons_append (a : Char) (l₁ l₂ : List Char) :
    (a :: l₁).isPrefixOf (a :: (l₁ ++ l₂)) = true := by
  have h := isPrefixOf_append_self (a :: l₁) l₂
  rwa [List.cons_append] at h

theorem drop_cons_append (a : Char) (l₁ l₂ : List Char) :
    List.drop (a :: l₁).length (a :: (l₁ ++ l₂)) = l₂ := by
  simp only [List.length_cons, List.drop_succ_cons, List.drop_left]

theorem lbrace_pat_at_rbrace_cons (p s : List Char) :
    (lbrace :: p).isPrefixOf (rbrace :: s) = false := by
  have hb : (lbrace == rbrace) = false := by decide
  simp [List.isPrefixOf_cons₂, hb]

theorem braceFree_cons (c : Char) (t : List Char) :
    braceFree (c :: t) = true ↔ c ≠ lbrace ∧ c ≠ rbrace ∧ braceFree t = true := by
  simp [braceFree, Bool.and_eq_true, bne_iff_ne, and_assoc]

theorem braceFree_mem (s : List Char) (hs : braceFree s = true) :
    ∀ c ∈ s, c ≠ lbrace ∧ c ≠ rbrace := by
  induction s with
  | nil => simp
  | cons c s ih =>
    obtain ⟨h1, h2, h3⟩ := (braceFree_cons c s).mp hs
    intro d hd
    rcases List.mem_cons.mp hd with hd | hd
    · exact hd ▸ ⟨h1, h2⟩
    · exact ih h3 d hd

theorem strReplace_brace_head_append (p rep s : List Char) :
    ∀ t : List Char, (∀ c ∈ t, c ≠ lbrace) →
      strReplace (t ++ s) (lbrace :: p) rep = t ++ strReplace s (lbrace :: p) rep := by
  intro t
  induction t with
  | nil => intro _; rfl
  | cons c t ih =>
    intro ht
    have hc : c ≠ lbrace := ht c (by simp)
    have hb : (lbrace == c) = false := beq_eq_false_iff_ne.mpr (Ne.symm hc)
    have h : (lbrace :: p).isPrefixOf (c :: (t ++ s)) = false := by
      simp [List.isPrefixOf_cons₂, hb]
    rw [List.cons_append, strReplace_cons_neg _ _ _ _ h,
      ih (fun d hd => ht d (by simp [hd]))]
    rfl

theorem isPrefixOf_key_ne (k : List Char) :
    ∀ (k' s : List Char), braceFree k = true → braceFree k' = true → k ≠ k' →
      (k ++ [rbrace]).isPrefixOf (k' ++ rbrace :: s) = false := by
  induction k with
  | nil =>
    intro k' s _ hk' hne
    cases k' with
    | nil => exact absurd rfl hne
    | cons c' t' =>
      have hc' : c' ≠ rbrace := ((braceFree_cons c' t').mp hk').2.1
      simp [List.isPrefixOf_cons₂, beq_eq_false_iff_ne.mpr (Ne.symm hc')]
  | cons c t ih =>
    intro k' s hk hk' hne
    obtain ⟨_, hcr, ht⟩ := (braceFree_cons c t).mp hk
    cases k' with
    | nil => simp [List.isPrefixOf_cons₂, beq_eq_false_iff_ne.mpr hcr]
    | cons c' t' =>
      obtain ⟨_, _, ht'⟩ := (braceFree_cons c' t').mp hk'
      by_cases hcc : c = c'
      · subst hcc
        have htt : t ≠ t' := fun hteq => hne (by rw [hteq])
        simp [List.isPrefixOf_cons₂, ih t' s ht ht' htt]
      · simp [List.isPrefixOf_cons₂, beq_eq_false_iff_ne.mpr hcc]

theorem strReplace_render (k v : List Char) (hk : braceFree k = true) :
    ∀ ts : List Tok, wfToks ts = true →
      strReplace (render ts) (lbrace :: (k ++ [rbrace])) v = render (substOne k v ts) := by
  intro ts
  induction ts with
  | nil => intro _; rfl
  | cons t ts ih =>
    intro hwf
    have hall : wfTok t = true ∧ wfToks ts = true := by
      simpa [wfToks, Bool.and_eq_true] using hwf
    obtain ⟨hwt, hwts⟩ := hall
    cases t with
    | lit s =>
      have hs : braceFree s = true := hwt
      show strReplace (s ++ render ts) _ _ = render (Tok.lit s :: substOne k v ts)
      rw [strReplace_brace_head_append _ _ _ s (fun c hc => (braceFree_mem s hs c hc).1),
        ih hwts]
      rfl
    | ph k' =>
      by_cases hkk : k' = k
      · subst hkk
        show strReplace ((lbrace :: (k' ++ [rbrace])) ++ render ts) (lbrace :: (k' ++ [rbrace])) v
          = render ((if k' = k' then Tok.lit v else Tok.ph k') :: substOne k' v ts)
        rw [if_pos rfl, List.cons_append,
          strReplace_cons_pos _ _ _ _ (by simp)
            (isPrefixOf_cons_append lbrace (k' ++ [rbrace]) (render ts)),
          drop_cons_append, ih hwts]
        rfl
      · have hne : k ≠ k' := fun h => hkk h.symm
        have hk' : braceFree k' = true := hwt
        have hpre : (lbrace :: (k ++ [rbrace])).isPrefixOf
            (lbrace :: (k' ++ rbrace :: render ts)) = false := by
          simp only [List.isPrefixOf_cons₂, beq_self_eq_true, Bool.true_and]
          exact isPrefixOf_key_ne k k' (render ts) hk hk' hne
        show strReplace ((lbrace :: (k' ++ [rbrace])) ++ render ts) _ v
          = render ((if k' = k then Tok.lit v else Tok.ph k') :: substOne k v ts)
        rw [if_neg hkk]
        have hshape : (lbrace :: (k' ++ [rbrace])) ++ render ts
            = lbrace :: (k' ++ rbrace :: render ts) := by simp
        rw [hshape, strReplace_cons_neg _ _ _ _ hpre,
          strReplace_brace_head_append _ _ _ k'
            (fun c hc => (braceFree_mem k' hk' c hc).1),
          strReplace_cons_neg _ _ _ _ (lbrace_pat_at_rbrace_cons (k ++ [rbrace]) (render ts)),
          ih hwts]
        simp [render, renderTok]

theorem map_substTok_nil (ts : List Tok) : ts.map (substTok []) = ts := by
  induction ts with
  | nil => rfl
  | cons t ts ih =>
    cases t <;> simp [substTok, lookupKey, ih]

theorem substOne_map_substTok (k v : List Char) (m : List (List Char × List Char)) :
    ∀ ts : List Tok, (substOne k v ts).map (substTok m) = ts.map (substTok ((k, v) :: m)) := by
  intro ts
  induction ts with
  | nil => rfl
  | cons t ts ih =>
    cases t with
    | lit s => simp [substOne, substTok, ih]
    | ph k' =>
      by_cases hkk : k' = k
      · subst hkk
        simp [substOne, substTok, lookupKey, ih]
      · have hne : ¬(k = k') := fun h => hkk h.symm
        simp [substOne, substTok, lookupKey, hkk, hne, ih]

theorem wfToks_substOne (k v : List Char) (hv : braceFree v = true) :
    ∀ ts : List Tok, wfToks ts = true → wfToks (substOne k v ts) = true := by
  intro ts
  induction ts with
  | nil => intro _; rfl
  | cons t ts ih =>
    intro hwf
    have hall : wfTok t = true ∧ wfToks ts = true := by
      simpa [wfToks, Bool.and_eq_true] using hwf
    obtain ⟨hwt, hwts⟩ := hall
    have h2 := ih hwts
    cases t with
    | lit s =>
      simp only [substOne, wfToks, List.all_cons, Bool.and_eq_true]
      exact ⟨hwt, h2⟩
    | ph k' =>
      by_cases hkk : k' = k
      · subst hkk
        simp only [substOne, if_pos rfl, wfToks, List.all_cons, Bool.and_eq_true]
        exact ⟨hv, h2⟩
      · simp only [substOne, if_neg hkk, wfToks, List.all_cons, Bool.and_eq_true]
        exact ⟨hwt, h2⟩

/-- The sequential `str::replace` passes of `replace_placeholders`, run on a
string whose placeholders are well delimited and with brace-free keys and
values, amount to the simultaneous substitution `substTok`: every
placeholder whose key is bound in the mapping becomes its value, every
other placeholder and all literal text survive unchanged. -/
theorem replace_placeholders_render (m : List (List Char × List Char)) :
    ∀ ts : List Tok, wfToks ts = true →
      (∀ kv ∈ m, braceFree kv.1 = true) → (∀ kv ∈ m, braceFree kv.2 = true) →
      replace_placeholders m (render ts) = render (ts.map (substTok m)) := by
  induction m with
  | nil =>
    intro ts _ _ _
    rw [map_substTok_nil]
    rfl
  | cons kv m ih =>
    intro ts hts hk hv
    obtain ⟨k, v⟩ := kv
    have step : replace_placeholders ((k, v) :: m) (render ts)
        = replace_placeholders m (strReplace (render ts) (lbrace :: (k ++ [rbrace])) v) := rfl
    rw [step, strReplace_render k v (hk (k, v) (by simp)) ts hts,
      ih (substOne k v ts)
        (wfToks_substOne k v (hv (k, v) (by simp)) ts hts)
        (fun x hx => hk x (by simp [hx]))
        (fun x hx => hv x (by simp [hx])),
      substOne_map_substTok]

theorem lookupKey_perm {α β : Type} [DecidableEq α] {m m' : List (α × β)}
    (hperm : m.Perm m') :
    (m.map Prod.fst).Nodup → ∀ k, lookupKey k m = lookupKey k m' := by
  induction hperm with
  | nil => intro _ _; rfl
  | cons kv p ih =>
    intro hnd k
    rw [List.map_cons] at hnd
    have hnd' := List.Nodup.of_cons hnd
    by_cases hk : kv.1 = k
    · simp [lookupKey, hk]
    · simp [lookupKey, hk, ih hnd' k]
  | swap x y l =>
    intro hnd k
    have hxy : y.1 ≠ x.1 := by
      simp only [List.map_cons, List.nodup_cons, List.mem_cons] at hnd
      exact fun h => hnd.1 (Or.inl h)
    by_cases h1 : x.1 = k <;> by_cases h2 : y.1 = k <;>
      simp [lookupKey, h1, h2]
    exact absurd (h2.trans h1.symm) hxy
  | trans p1 p2 ih1 ih2 =>
    intro hnd k
    have hnd2 : _ := ((p1.map Prod.fst).nodup_iff).mp hnd
    exact (ih1 hnd k).trans (ih2 hnd2 k)

/-! ## Claim C1: per-occurrence substitution -/

/-- Claim C1 counterexample: with the mapping `a ↦ \x7bb\x7d, b ↦ c` (in
that iteration order) and input `\x7ba\x7d`, the claim's description
demands output `\x7bb\x7d` — the single occurrence of the `a` placeholder
replaced by `a`'s value, there being no `b` placeholder in the input — but
the code's second sequential pass rewrites the placeholder text introduced
by the first pass's value and returns `c`. -/
theorem replace_placeholders_cascade_counterexample :
    replace_placeholders [("a".toList, "\x7bb\x7d".toList), ("b".toList, "c".toList)]
      ("\x7ba\x7d".toList) ≠ "\x7bb\x7d".toList := by decide

/-- Claim C1 (amended): for inputs whose placeholders are well delimited
(the rendering of a token list of brace-free literals and brace-free
placeholder keys) and mappings whose keys and values are brace-free,
`replace_placeholders` replaces each placeholder whose key is bound in the
mapping by the mapping's value and leaves every placeholder whose key is
absent, and all literal text, untouched.  Without those restrictions the
sequential passes are not simultaneous substitution (see the
counterexample). -/
theorem replace_placeholders_substitutes (m : List (List Char × List Char)) (ts : List Tok)
    (hts : wfToks ts = true)
    (hkeys : ∀ kv ∈ m, braceFree kv.1 = true)
    (hvals : ∀ kv ∈ m, braceFree kv.2 = true) :
    replace_placeholders m (render ts) = render (ts.map (substTok m)) :=
  replace_placeholders_render m ts hts hkeys hvals

/-- Claim C1 witness: the spec's own example,
`replace_placeholders("hello \x7bworld\x7d", world ↦ earth) = "hello earth"`. -/
theorem replace_placeholders_substitutes_witness :
    replace_placeholders [("world".toList, "earth".toList)] ("hello \x7bworld\x7d".toList)
      = "hello earth".toList := by
  have h := replace_placeholders_substitutes [("world".toList, "earth".toList)]
    [Tok.lit "hello ".toList, Tok.ph "world".toList] (by decide) (by decide) (by decide)
  rw [(by decide : render [Tok.lit "hello ".toList, Tok.ph "world".toList]
      = "hello \x7bworld\x7d".toList)] at h
  rw [h]
  decide

/-! ## Claim C7: confluence of the replacement order -/

/-- Claim C7 counterexample: the two iteration orders of the mapping
`a ↦ \x7bb\x7d, b ↦ c` give different outputs on input `\x7ba\x7d`
(`c` versus `\x7bb\x7d`), so the substitution order is not confluent for
arbitrary mappings. -/
theorem replace_placeholders_order_counterexample :
    replace_placeholders [("a".toList, "\x7bb\x7d".toList), ("b".toList, "c".toList)]
        ("\x7ba\x7d".toList)
      ≠ replace_placeholders [("b".toList, "c".toList), ("a".toList, "\x7bb\x7d".toList)]
        ("\x7ba\x7d".toList) := by decide

/-- Claim C7 (amended): on well-delimited inputs, with distinct brace-free
keys and brace-free values, any two iteration orders of the same mapping
produce the same output: both equal the simultaneous substitution.  When a
value contains another key's placeholder the orders may disagree (see the
counterexample). -/
theorem replace_placeholders_confluent (m m' : List (List Char × List Char)) (ts : List Tok)
    (hperm : m.Perm m') (hnd : (m.map Prod.fst).Nodup)
    (hts : wfToks ts = true)
    (hkeys : ∀ kv ∈ m, braceFree kv.1 = true)
    (hvals : ∀ kv ∈ m, braceFree kv.2 = true) :
    replace_placeholders m' (render ts) = replace_placeholders m (render ts) := by
  have hkeys' : ∀ kv ∈ m', braceFree kv.1 = true :=
    fun kv h => hkeys kv (hperm.mem_iff.mpr h)
  have hvals' : ∀ kv ∈ m', braceFree kv.2 = true :=
    fun kv h => hvals kv (hperm.mem_iff.mpr h)
  rw [replace_placeholders_render m' ts hts hkeys' hvals',
    replace_placeholders_render m ts hts hkeys hvals]
  have hsub : ∀ t : Tok, substTok m t = substTok m' t := by
    intro t
    cases t with
    | lit s => rfl
    | ph k => simp [substTok, lookupKey_perm hperm hnd k]
  have hmap : ts.map (substTok m') = ts.map (substTok m) := by
    clear hts
    induction ts with
    | nil => rfl
    | cons t ts ih => simp [hsub t, ih]
  rw [hmap]

/-- Claim C7 witness: the two orders of the mapping `a ↦ x, b ↦ y` agree
on `\x7ba\x7d \x7bb\x7d`. -/
theorem replace_placeholders_confluent_witness :
    replace_placeholders [("a".toList, "x".toList), ("b".toList, "y".toList)]
        ("\x7ba\x7d \x7bb\x7d".toList)
      = replace_placeholders [("b".toList, "y".toList), ("a".toList, "x".toList)]
        ("\x7ba\x7d \x7bb\x7d".toList) := by
  have h := replace_placeholders_confluent
    [("b".toList, "y".toList), ("a".toList, "x".toList)]
    [("a".toList, "x".toList), ("b".toList, "y".toList)]
    [Tok.ph "a".toList, Tok.lit " ".toList, Tok.ph "b".toList]
    (List.Perm.swap _ _ []) (by decide) (by decide) (by decide) (by decide)
  rw [(by decide : render [Tok.ph "a".toList, Tok.lit " ".toList, Tok.ph "b".toList]
      = "\x7ba\x7d \x7bb\x7d".toList)] at h
  exact h

/-! ## Claim C9: counting placeholders -/

theorem braceFree_count_lbrace (s : List Char) (hs : braceFree s = true) :
    s.count lbrace = 0 := by
  induction s with
  | nil => rfl
  | cons c s ih =>
    obtain ⟨h1, _, h3⟩ := (braceFree_cons c s).mp hs
    simp [List.count_cons, ih h3, h1]

/-- Claim C9 counterexample: on `\x7babc` the function returns `1` (it
counts `\x7b` characters) although no complete `\x7bname\x7d` occurrence is
present — the spec-side count is `0`. -/
theorem num_placeholders_counterexample :
    num_placeholders ("\x7babc".toList) = 1
      ∧ specNumPlaceholders ("\x7babc".toList) = 0 := by decide

/-- Claim C9 (amended): `num_placeholders` returns the number of `\x7b`
characters; on inputs whose placeholders are well delimited this equals the
number of placeholders present, but on malformed inputs (an unclosed
`\x7b`) it overcounts. -/
theorem num_placeholders_render (ts : List Tok) (hts : wfToks ts = true) :
    num_placeholders (render ts) = ts.countP isPhTok := by
  induction ts with
  | nil => rfl
  | cons t ts ih =>
    have hall : wfTok t = true ∧ wfToks ts = true := by
      simpa [wfToks, Bool.and_eq_true] using hts
    obtain ⟨hwt, hwts⟩ := hall
    have ihv : List.count lbrace (render ts) = ts.countP isPhTok := ih hwts
    cases t with
    | lit s =>
      show (s ++ render ts).count lbrace = _
      rw [List.count_append, braceFree_count_lbrace s hwt, ihv]
      simp [List.countP_cons, isPhTok]
    | ph k =>
      show ((lbrace :: (k ++ [rbrace])) ++ render ts).count lbrace = _
      rw [List.count_append, ihv]
      have hk0 : k.count lbrace = 0 := braceFree_count_lbrace k hwt
      have hr0 : ([rbrace] : List Char).count lbrace = 0 := by decide
      simp [List.count_cons, List.count_append, hk0, hr0, List.countP_cons, isPhTok]
      omega

/-- Claim C9 witness: `a\x7bb\x7dc` contains one placeholder and the
function counts one. -/
theorem num_placeholders_render_witness :
    num_placeholders ("a\x7bb\x7dc".toList) = 1 := by
  have h := num_placeholders_render
    [Tok.lit "a".toList, Tok.ph "b".toList, Tok.lit "c".toList] (by decide)
  rw [(by decide : render [Tok.lit "a".toList, Tok.ph "b".toList, Tok.lit "c".toList]
      = "a\x7bb\x7dc".toList)] at h
  rw [h]
  decide

/-! ## Claim C10: the scanning helpers `find_key` and `copy_end` -/

theorem findChar_lt (c : Char) :
    ∀ (s : List Char) (i : Nat), findChar c s = some i → i < s.length := by
  intro s
  induction s with
  | nil => intro i h; simp [findChar] at h
  | cons x xs ih =>
    intro i h
    by_cases hx : x = c
    · simp only [findChar, if_pos hx, Option.some.injEq] at h
      simp [← h]
    · simp only [findChar, if_neg hx, Option.map_eq_some'] at h
      obtain ⟨j, hj, hji⟩ := h
      have := ih j hj
      simp only [List.length_cons]
      omega

/-- Claim C10 counterexample: on the input `\x7d\x7b` — a `\x7d` before
the first `\x7b` — the slice `input[template_start + 1..template_end]` has
inverted bounds (`2..0`) and `find_key` panics instead of returning. -/
theorem find_key_counterexample :
    find_key ("\x7d\x7b".toList) = .error .sliceOutOfBounds := rfl

/-- Claim C10 (amended): `copy_end` is panic-free for every cursor index up
to the input length (returning the tail from that index), and `find_key` is
panic-free whenever a delimiter is missing (returning `none`) or the first
`\x7b` precedes the first `\x7d` (returning the key strictly between them
together with the end index); but on inputs whose first `\x7d` precedes
their first `\x7b` the slice bounds are inverted and `find_key` panics —
the claim's "never panics … including inputs where a `\x7d` occurs before
the first `\x7b`" fails exactly there. -/
theorem find_key_copy_end_characterization (input : List Char) :
    (terminator_start input = none → find_key input = .ok none) ∧
    (terminator_end input = none → find_key input = .ok none) ∧
    (∀ st en, terminator_start input = some st → terminator_end input = some en →
      st < en →
      find_key input = .ok (some ((input.drop (st + 1)).take (en - (st + 1)), en))) ∧
    (∀ st en, terminator_start input = some st → terminator_end input = some en →
      en < st → find_key input = .error .sliceOutOfBounds) ∧
    (∀ last_end, last_end ≤ input.length →
      copy_end input last_end = .ok (input.drop last_end)) := by
  refine ⟨?_, ?_, ?_, ?_, ?_⟩
  · intro h
    simp [find_key, h]
  · intro h
    cases hs : terminator_start input <;> simp [find_key, hs, h]
  · intro st en h1 h2 hlt
    have hen : en < input.length := findChar_lt rbrace input en h2
    have hslice : sliceIdx input (st + 1) en
        = some ((input.drop (st + 1)).take (en - (st + 1))) := by
      unfold sliceIdx
      rw [if_pos ⟨hlt, Nat.le_of_lt hen⟩]
    simp [find_key, h1, h2, hslice]
  · intro st en h1 h2 hlt
    have hneg : ¬(st + 1 ≤ en ∧ en ≤ input.length) := by omega
    have hslice : sliceIdx input (st + 1) en = none := by
      unfold sliceIdx
      rw [if_neg hneg]
    simp [find_key, h1, h2, hslice]
  · intro last_end hle
    simp [copy_end, hle]

/-- Claim C10 witness: on `x\x7bkey\x7dy` the first `\x7b` is at index 1
and the first `\x7d` at index 5, so `find_key` returns the key `key` with
end index 5, and `copy_end` at cursor 5 returns the tail `\x7dy`. -/
theorem find_key_copy_end_witness :
    find_key ("x\x7bkey\x7dy".toList) = .ok (some ("key".toList, 5))
      ∧ copy_end ("x\x7bkey\x7dy".toList) 5 = .ok ("\x7dy".toList) := by
  have h := find_key_copy_end_characterization ("x\x7bkey\x7dy".toList)
  constructor
  · exact (h.2.2.1 1 5 (by decide) (by decide) (by decide)).trans rfl
  · exact (h.2.2.2.2 5 (by decide)).trans rfl

/-! ## Claim C2: the phase accessors -/

/-- Claim C2 counterexample: create-phase absence and setup-phase absence
produce errors of the *same* kind (`SetupError`), so the "not found" error
kind is not distinct per phase — only the messages differ. -/
theorem accessors_kind_counterexample :
    errorKindOf (get_create_steps { env := none, create := none, setup := none, spam := none })
      = errorKindOf (get_setup_steps { env := none, create := none, setup := none, spam := none })
    ∧ errorKindOf (get_create_steps { env := none, create := none, setup := none, spam := none })
      = some .setupKind :=
  ⟨rfl, rfl⟩

/-- Claim C2 (amended): each accessor returns exactly the stored
sequence/mapping when its field is present and fails when it is absent —
absence is never an empty ok result — with a phase-specific "not found"
message; the four absence errors are pairwise distinct values, but the
error *variant* is phase-specific only for spam (`SpamError`): setup,
create, and env absence all produce the `SetupError` variant. -/
theorem accessors_characterization (c : TestConfig) :
    (∀ s, c.spam = some s → get_spam_steps c = .ok s) ∧
    (c.spam = none → get_spam_steps c = .error (.SpamError "no spam steps found" none)) ∧
    (∀ s, c.setup = some s → get_setup_steps c = .ok s) ∧
    (c.setup = none → get_setup_steps c = .error (.SetupError "no setup steps found" none)) ∧
    (∀ s, c.create = some s → get_create_steps c = .ok s) ∧
    (c.create = none → get_create_steps c = .error (.SetupError "no create steps found" none)) ∧
    (∀ e, c.env = some e → get_env c = .ok e) ∧
    (c.env = none → get_env c = .error (.SetupError "no environment variables found" none)) ∧
    (ContenderError.SpamError "no spam steps found" none).kind = .spamKind ∧
    (ContenderError.SetupError "no setup steps found" none).kind = .setupKind ∧
    (ContenderError.SetupError "no create steps found" none).kind = .setupKind ∧
    (ContenderError.SetupError "no environment variables found" none).kind = .setupKind ∧
    (ContenderError.SpamError "no spam steps found" none
      ≠ ContenderError.SetupError "no setup steps found" none) ∧
    (ContenderError.SpamError "no spam steps found" none
      ≠ ContenderError.SetupError "no create steps found" none) ∧
    (ContenderError.SpamError "no spam steps found" none
      ≠ ContenderError.SetupError "no environment variables found" none) ∧
    (ContenderError.SetupError "no setup steps found" none
      ≠ ContenderError.SetupError "no create steps found" none) ∧
    (ContenderError.SetupError "no setup steps found" none
      ≠ ContenderError.SetupError "no environment variables found" none) ∧
    (ContenderError.SetupError "no create steps found" none
      ≠ ContenderError.SetupError "no environment variables found" none) := by
  refine ⟨?_, ?_, ?_, ?_, ?_, ?_, ?_, ?_, rfl, rfl, rfl, rfl,
    by decide, by decide, by decide, by decide, by decide, by decide⟩
  · intro s h; simp [get_spam_steps, h]
  · intro h; simp [get_spam_steps, h]
  · intro s h; simp [get_setup_steps, h]
  · intro h; simp [get_setup_steps, h]
  · intro s h; simp [get_create_steps, h]
  · intro h; simp [get_create_steps, h]
  · intro e h; simp [get_env, h]
  · intro h; simp [get_env, h]

/-- Claim C2 witness: a present spam field is returned exactly; an absent
setup field produces the setup-specific "not found" error. -/
theorem accessors_characterization_witness :
    get_spam_steps { env := none, create := none, setup := none, spam := some [] } = .ok []
    ∧ get_setup_steps { env := none, create := none, setup := none, spam := none }
      = .error (.SetupError "no setup steps found" none) :=
  ⟨(accessors_characterization _).1 [] rfl, (accessors_characterization _).2.2.2.1 rfl⟩

/-! ## Claim C6: the no-op callback -/

/-- Claim C6 (confirmed): for every transaction hash, request, and metadata
argument, the no-op callback performs no work, never panics, and yields no
background task: it returns `None`. -/
theorem nil_on_tx_sent_none {Req : Type} (tx_res : Nat) (req : Req)
    (extra : Option (List (String × String))) :
    nilOnTxSent tx_res req extra = .ok none := rfl

/-! ## Claim C4: the logging callback's run-identifier handling -/

/-- Claim C4 counterexample: when the metadata mapping is entirely absent
the code silently proceeds with run identifier `0` (`unwrap_or(0)`) — no
fatal error occurs, contradicting the claim. -/
theorem extract_run_id_counterexample : extractRunId none = .ok 0 := rfl

/-- Claim C4 (amended): when the metadata mapping is *present*, a missing
run-identifier key or an unparseable value is a fatal error (panic on
`unwrap`), and a parseable value is used as the run identifier; but when
the mapping is entirely absent the code silently defaults the run
identifier to 0 — "never silently proceeds with a defaulted run
identifier" holds only for present mappings. -/
theorem extract_run_id_characterization :
    (extractRunId none = .ok 0) ∧
    (∀ e, lookupKey "run_id" e = none → extractRunId (some e) = .error .unwrapNone) ∧
    (∀ e s, lookupKey "run_id" e = some s → parseU64 s.toList = none →
      extractRunId (some e) = .error .parseFailure) ∧
    (∀ e s n, lookupKey "run_id" e = some s → parseU64 s.toList = some n →
      extractRunId (some e) = .ok n) := by
  refine ⟨rfl, ?_, ?_, ?_⟩
  · intro e h; simp [extractRunId, h]
  · intro e s h1 h2
    have h2' : parseU64 s.data = none := h2
    simp [extractRunId, h1, h2']
  · intro e s n h1 h2
    have h2' : parseU64 s.data = some n := h2
    simp [extractRunId, h1, h2']

/-- Claim C4 witness: a parseable `run_id` is used, a mapping without the
key panics, an unparseable value panics. -/
theorem extract_run_id_witness :
    extractRunId (some [("run_id", "7")]) = .ok 7
    ∧ extractRunId (some [("foo", "1")]) = .error .unwrapNone
    ∧ extractRunId (some [("run_id", "abc")]) = .error .parseFailure := by
  refine ⟨?_, ?_, ?_⟩
  · exact extract_run_id_characterization.2.2.2 [("run_id", "7")] "7" 7 (by decide) (by decide)
  · exact extract_run_id_characterization.2.1 [("foo", "1")] (by decide)
  · exact extract_run_id_characterization.2.2.1 [("run_id", "abc")] "abc" (by decide) (by decide)

/-! ## Claim C8: the logging callback's happy path -/

/-- Claim C8 (confirmed): with a metadata mapping holding a parseable run
identifier, `on_tx_sent` returns `Some` handle whose spawned work persists
exactly the triple `(run_id, tx_hash, timestamp-in-milliseconds)`; a
failing database insert aborts (only) the spawned task, while the value
returned to the caller is the same `.ok` handle — it does not depend on the
database outcome, so the call itself never returns an error. -/
theorem log_on_tx_sent_characterization (txHash ts n : Nat)
    (e : List (String × String)) (s : String)
    (h1 : lookupKey "run_id" e = some s) (h2 : parseU64 s.toList = some n) :
    logOnTxSent txHash (some e) ts
      = .ok (some { run_id := n, tx_hash := txHash, timestamp := ts }) ∧
    (∀ dbResult : SpawnedInsert → Except String Unit, ∀ msg,
      dbResult { run_id := n, tx_hash := txHash, timestamp := ts } = .error msg →
      runSpawnedInsert dbResult { run_id := n, tx_hash := txHash, timestamp := ts }
        = .error .dbInsertFailed) ∧
    (∀ dbResult : SpawnedInsert → Except String Unit,
      dbResult { run_id := n, tx_hash := txHash, timestamp := ts } = .ok () →
      runSpawnedInsert dbResult { run_id := n, tx_hash := txHash, timestamp := ts }
        = .ok ()) := by
  refine ⟨?_, ?_, ?_⟩
  · have h2' : parseU64 s.data = some n := h2
    simp [logOnTxSent, extractRunId, h1, h2']
  · intro dbResult msg h; simp [runSpawnedInsert, h]
  · intro dbResult h; simp [runSpawnedInsert, h]

/-- Claim C8 witness: a concrete send with `run_id = 5` yields a task
carrying `(5, 99, 1234)`, and a failing insert aborts that task while the
callback's own result is unchanged. -/
theorem log_on_tx_sent_witness :
    logOnTxSent 99 (some [("run_id", "5")]) 1234
      = .ok (some { run_id := 5, tx_hash := 99, timestamp := 1234 })
    ∧ runSpawnedInsert (fun _ => .error "db failure")
        { run_id := 5, tx_hash := 99, timestamp := 1234 } = .error .dbInsertFailed := by
  have h := log_on_tx_sent_characterization 99 1234 5 [("run_id", "5")] "5"
    (by decide) (by decide)
  exact ⟨h.1, h.2.1 (fun _ => .error "db failure") "db failure" rfl⟩

/-! ## Claim C3: the address encoding -/

theorem hexDigitChar_facts :
    ∀ m : Fin 16, hexDigitVal (hexDigitChar m.val) = some m.val
      ∧ hexDigitChar m.val ≠ 'x' ∧ hexDigitChar m.val ≠ lbrace
      ∧ hexDigitChar m.val ≠ rbrace := by decide

theorem encodeBytesHex_length :
    ∀ bs : List Nat, (encodeBytesHex bs).length = 2 * bs.length := by
  intro bs
  induction bs with
  | nil => rfl
  | cons b bs ih =>
    show (encodeByteHex b ++ encodeBytesHex bs).length = _
    simp only [List.length_append, encodeByteHex, List.length_cons, List.length_nil,
      List.length_cons, ih]
    omega

theorem decodeHexBytes_encodeBytesHex :
    ∀ bs : List Nat, (∀ b ∈ bs, b < 256) → decodeHexBytes (encodeBytesHex bs) = some bs := by
  intro bs
  induction bs with
  | nil => intro _; rfl
  | cons b bs ih =>
    intro h
    have hb : b < 256 := h b (by simp)
    have hhi : b / 16 < 16 := Nat.div_lt_of_lt_mul (by omega)
    have hlo : b % 16 < 16 := Nat.mod_lt _ (by omega)
    show decodeHexBytes
      (hexDigitChar (b / 16) :: hexDigitChar (b % 16) :: encodeBytesHex bs) = _
    simp only [decodeHexBytes, (hexDigitChar_facts ⟨b / 16, hhi⟩).1,
      (hexDigitChar_facts ⟨b % 16, hlo⟩).1, ih (fun x hx => h x (by simp [hx]))]
    simp [Nat.div_add_mod]

theorem braceFree_encodeBytesHex :
    ∀ bs : List Nat, (∀ b ∈ bs, b < 256) → braceFree (encodeBytesHex bs) = true := by
  intro bs
  induction bs with
  | nil => intro _; rfl
  | cons b bs ih =>
    intro h
    have hb : b < 256 := h b (by simp)
    have hhi : b / 16 < 16 := Nat.div_lt_of_lt_mul (by omega)
    have hlo : b % 16 < 16 := Nat.mod_lt _ (by omega)
    show braceFree
      (hexDigitChar (b / 16) :: hexDigitChar (b % 16) :: encodeBytesHex bs) = true
    rw [braceFree_cons, braceFree_cons]
    exact ⟨(hexDigitChar_facts ⟨b / 16, hhi⟩).2.2.1, (hexDigitChar_facts ⟨b / 16, hhi⟩).2.2.2,
      (hexDigitChar_facts ⟨b % 16, hlo⟩).2.2.1, (hexDigitChar_facts ⟨b % 16, hlo⟩).2.2.2,
      ih (fun x hx => h x (by simp [hx]))⟩

theorem encodeBytesHex_not_0x (b : Nat) (bs : List Nat) :
    ("0x".toList).isPrefixOf (encodeBytesHex (b :: bs)) = false := by
  have hlo : b % 16 < 16 := Nat.mod_lt _ (by omega)
  have hx : hexDigitChar (b % 16) ≠ 'x' := (hexDigitChar_facts ⟨b % 16, hlo⟩).2.1
  show (['0', 'x'] : List Char).isPrefixOf
    (hexDigitChar (b / 16) :: hexDigitChar (b % 16) :: encodeBytesHex bs) = false
  simp [List.isPrefixOf_cons₂, beq_eq_false_iff_ne.mpr (Ne.symm hx)]

/-- Claim C3 counterexample: the encoding of the 20-byte address
`0x1111…11` is the 40 lowercase hex digits with **no** `0x` prefix
(`encode_hex` is the unprefixed variant of `const-hex`), so the rendering
is not "0x-prefixed" as the claim states. -/
theorem encode_contract_address_counterexample :
    ("0x".toList).isPrefixOf (encode_contract_address (List.replicate 20 17)) = false
      ∧ (encode_contract_address (List.replicate 20 17)).length = 40 := by decide

/-- Claim C3 (amended): `encode_contract_address` renders a 20-byte address
as fixed-width 40-hex-digit lowercase text **without** a `0x` prefix;
substituting the encoding into a placeholder embeds it verbatim, and
re-parsing with the (optional-prefix) address parser recovers the original
address, so encode → substitute → re-parse is lossless — only the
"0x-prefixed" part of the claim fails on the code. -/
theorem encode_contract_address_roundtrip (addr : List Nat) (hlen : addr.length = 20)
    (hb : ∀ b ∈ addr, b < 256) (k : List Char) (hk : braceFree k = true) :
    (encode_contract_address addr).length = 40 ∧
    ("0x".toList).isPrefixOf (encode_contract_address addr) = false ∧
    replace_placeholders [(k, encode_contract_address addr)] (render [Tok.ph k])
      = encode_contract_address addr ∧
    parseAddress (encode_contract_address addr) = some addr := by
  have hlen40 : (encode_contract_address addr).length = 40 := by
    show (encodeBytesHex addr).length = 40
    rw [encodeBytesHex_length, hlen]
  have hno : ("0x".toList).isPrefixOf (encode_contract_address addr) = false := by
    cases addr with
    | nil => simp at hlen
    | cons b bs => exact encodeBytesHex_not_0x b bs
  refine ⟨hlen40, hno, ?_, ?_⟩
  · have h := replace_placeholders_render [(k, encode_contract_address addr)] [Tok.ph k]
      (by simp [wfToks, wfTok, hk])
      (by intro kv hkv; simp at hkv; rw [hkv]; exact hk)
      (by intro kv hkv; simp at hkv; rw [hkv]; exact braceFree_encodeBytesHex addr hb)
    rw [h]
    simp [substTok, lookupKey, render, renderTok]
  · show parseAddress (encodeBytesHex addr) = some addr
    have hno2 : (['0', 'x'] : List Char).isPrefixOf (encodeBytesHex addr) = false := hno
    have hno' : ¬((['0', 'x'] : List Char) <+: encodeBytesHex addr) := by
      rw [← List.isPrefixOf_iff_prefix]
      simp [hno2]
    have hlen40' : (encodeBytesHex addr).length = 40 := hlen40
    simp [parseAddress, hno', hlen40', decodeHexBytes_encodeBytesHex addr hb]

/-- Claim C3 witness: the concrete address of twenty `0x11` bytes
round-trips through encode and re-parse. -/
theorem encode_contract_address_roundtrip_witness :
    parseAddress (encode_contract_address (List.replicate 20 17))
      = some (List.replicate 20 17) :=
  (encode_contract_address_roundtrip (List.replicate 20 17) (by decide) (by decide)
    ("a".toList) (by decide)).2.2.2

/-! ## Claim C5: the TOML round-trip -/

theorem decodeListWith_map {α : Type} (dec : TomlVal → Option α) (enc : α → TomlVal) :
    ∀ l : List α, (∀ a ∈ l, dec (enc a) = some a) →
      decodeListWith dec (l.map enc) = some l := by
  intro l
  induction l with
  | nil => intro _; rfl
  | cons a l ih =>
    intro h
    show decodeListWith dec (enc a :: l.map enc) = _
    simp only [decodeListWith, h a (by simp), ih (fun x hx => h x (by simp [hx]))]

theorem decodeFuzzParam_encodeFuzzParam (f : FuzzParam) :
    decodeFuzzParam (encodeFuzzParam f) = some f := by
  obtain ⟨p, mn, mx⟩ := f
  cases mn <;> cases mx <;>
    simp +decide [encodeFuzzParam, decodeFuzzParam, optField, lookupKey, decodeOptWith,
      asStr, asNum]

theorem decodeEnvEntries_map :
    ∀ m : List (String × String),
      decodeEnvEntries (m.map (fun kv => (kv.1, TomlVal.str kv.2))) = some m := by
  intro m
  induction m with
  | nil => rfl
  | cons kv m ih =>
    show decodeEnvEntries ((kv.1, TomlVal.str kv.2) :: m.map _) = _
    simp [decodeEnvEntries, asStr, ih]

theorem decodeEnv_encodeEnv (m : List (String × String)) :
    decodeEnv (encodeEnv m) = some m :=
  decodeEnvEntries_map m

theorem decodeListWith_str (l : List String) :
    decodeListWith asStr (l.map TomlVal.str) = some l :=
  decodeListWith_map asStr TomlVal.str l (fun _ _ => rfl)

theorem decodeListWith_fuzz (l : List FuzzParam) :
    decodeListWith decodeFuzzParam (l.map encodeFuzzParam) = some l :=
  decodeListWith_map _ _ l (fun a _ => decodeFuzzParam_encodeFuzzParam a)

theorem decodeFunctionCall_encodeFunctionCall (f : FunctionCallDefinition) :
    decodeFunctionCall (encodeFunctionCall f) = some f := by
  obtain ⟨t, fr, sg, ar, vl, fz⟩ := f
  cases ar <;> cases vl <;> cases fz <;>
    simp +decide [encodeFunctionCall, decodeFunctionCall, optField, lookupKey,
      decodeOptWith, decodeArrWith, asStr, decodeListWith_str, decodeListWith_fuzz]

theorem decodeCreate_encodeCreate (c : CreateDefinition) :
    decodeCreate (encodeCreate c) = some c := by
  obtain ⟨b, n, fr⟩ := c
  simp +decide [encodeCreate, decodeCreate, lookupKey, asStr]

theorem decodeListWith_fcd (l : List FunctionCallDefinition) :
    decodeListWith decodeFunctionCall (l.map encodeFunctionCall) = some l :=
  decodeListWith_map _ _ l (fun a _ => decodeFunctionCall_encodeFunctionCall a)

theorem decodeListWith_create (l : List CreateDefinition) :
    decodeListWith decodeCreate (l.map encodeCreate) = some l :=
  decodeListWith_map _ _ l (fun a _ => decodeCreate_encodeCreate a)

/-- Claim C5 (confirmed at the document level): serializing a plan and
deserializing the result reproduces identical values for all four optional
top-level fields, including every nested create/setup/spam entry and every
nested optional field (`args`, `value`, `fuzz`, fuzz bounds). -/
theorem decode_encode_toml (c : TestConfig) : decode_toml (encode_toml c) = some c := by
  obtain ⟨e, cr, st, sp⟩ := c
  cases e <;> cases cr <;> cases st <;> cases sp <;>
    simp +decide [encode_toml, decode_toml, optField, decodeOptWith, lookupKey,
      decodeArrWith, decodeEnv_encodeEnv, decodeListWith_fcd, decodeListWith_create]

end Contender
